import Mathlib

/-!
Verification of the liza-cli synchronization and unread-state-tracking engine.

The development shallowly embeds the Python sources:
  - config.py : the data model (User, Update, PullRequest) and the
    read/unread policy methods on PullRequest;
  - liza.py : the repository reconciler (update_watched_pulled_requests),
    the activity classifier loop inside update_pull_requests, and the
    read / unread command actions.

Timestamps are modelled as integers (an instant on a linear time line);
Python dictionaries keyed by pull-request id are modelled as association
lists with Python dict semantics: insertion of an existing key updates the
value in place (keeping its position), insertion of a fresh key appends.

Python evaluates a default-argument or class-field default expression once,
when the enclosing def or class body is executed (module import), not at
each call or construction.  Where the source uses such a default
(PullRequest.last_read, PullRequest.last_updated, mark_read's at argument)
the embedding threads that once-evaluated instant as an explicit
importTime parameter.
-/

namespace LizaCli

/-- A user, from config.py: a stable uuid and a display name (the avatar
link is presentation plumbing and is omitted). -/
structure User where
  uuid : String
  display_name : String
deriving DecidableEq

/-- ActivityType from config.py: approval, comment or generic update. -/
inductive ActivityType where
  | approval
  | comment
  | update
deriving DecidableEq

/-- Update from config.py: one classified activity event. -/
structure Update where
  date : Int
  activity_type : ActivityType
  author : User
deriving DecidableEq

/-- PullRequest from config.py (the html link field is omitted as plumbing). -/
structure PullRequest where
  id : Nat
  title : String
  author : User
  updates : List Update
  last_read : Int
  last_updated : Int
deriving DecidableEq

/-- PullRequest.is_authored_by from config.py line 45. -/
def PullRequest.is_authored_by (pr : PullRequest) (uuid : String) : Bool :=
  uuid == pr.author.uuid

/-- PullRequest.mark_read from config.py line 48, with the at argument
passed explicitly: sets last_read to at. -/
def PullRequest.mark_read (pr : PullRequest) (t : Int) : PullRequest :=
  { pr with last_read := t }

/-- PullRequest.mark_read called with no argument.  The source declares
the default as at = datetime.now(timezone.utc); Python evaluates that
expression once, when the class body runs at module import, so every
no-argument call uses the import-time instant, not the call-time instant. -/
def PullRequest.mark_read_default (pr : PullRequest) (importTime : Int) : PullRequest :=
  pr.mark_read importTime

/-- PullRequest.mark_updated from config.py line 51: datetime.now is in the
method body, so here it is evaluated at each call; now is the call instant. -/
def PullRequest.mark_updated (pr : PullRequest) (now : Int) : PullRequest :=
  { pr with last_updated := now }

/-- PullRequest.unread_updates from config.py lines 54-58: the empty list
when last_read > last_updated, otherwise the updates list. -/
def PullRequest.unread_updates (pr : PullRequest) : List Update :=
  if pr.last_read > pr.last_updated then [] else pr.updates

/-- PullRequest.has_unread_updates from config.py lines 60-61. -/
def PullRequest.has_unread_updates (pr : PullRequest) : Bool :=
  pr.unread_updates.length > 0

/-- One raw activity-feed event as the classifier in liza.py reads it: the
single top-level key of the event names its kind, and the payload carries
the fields date, created_on, user and author, of which the classifier
selects the kind-specific ones via the date_keys and user_keys tables. -/
structure RawActivity where
  kind : ActivityType
  date : Int
  created_on : Int
  user : User
  author : User
deriving DecidableEq

/-- The date_keys selection of liza.py lines 168-172 and 188: field date
for approval and update events, field created_on for comment events. -/
def date_of_activity (a : RawActivity) : Int :=
  match a.kind with
  | ActivityType.approval => a.date
  | ActivityType.comment => a.created_on
  | ActivityType.update => a.date

/-- The user_keys selection of liza.py lines 174-178 and 193: field user
for approval and comment events, field author for update events. -/
def update_author (a : RawActivity) : User :=
  match a.kind with
  | ActivityType.approval => a.user
  | ActivityType.comment => a.user
  | ActivityType.update => a.author

/-- The classifier loop of update_pull_requests, liza.py lines 184-211: walk
the feed in delivered order; break outright at the first event dated
strictly before last_read; skip events authored by the current user; skip
approval events unless the pull request is authored by the current user;
convert every surviving event into an Update, in order. -/
def classify_activities (user_uuid : String) (pr : PullRequest) :
    List RawActivity → List Update
  | [] => []
  | a :: rest =>
    if date_of_activity a < pr.last_read then
      []
    else if (update_author a).uuid = user_uuid then
      classify_activities user_uuid pr rest
    else if pr.is_authored_by user_uuid = false ∧ a.kind = ActivityType.approval then
      classify_activities user_uuid pr rest
    else
      { date := date_of_activity a,
        activity_type := a.kind,
        author := update_author a } :: classify_activities user_uuid pr rest

/-- The per-pull-request body of update_pull_requests, liza.py lines
179-214: replace the updates list with the classifier output, then
mark_updated (which stamps the call instant now). -/
def update_one_pull_request (user_uuid : String) (now : Int) (pr : PullRequest)
    (activities : List RawActivity) : PullRequest :=
  PullRequest.mark_updated
    { pr with updates := classify_activities user_uuid pr activities } now

/-- A raw remote pull-request entry as returned by
get_assigned_and_authored_pull_requests: the fields PullRequest.parse_obj
consumes (id, title, author). -/
structure RawPullRequest where
  id : Nat
  title : String
  author : User
deriving DecidableEq

/-- PullRequest.parse_obj applied to a raw remote entry, liza.py line 158:
the absent fields take their class defaults from config.py lines 41-43 —
an empty updates list, and last_read and last_updated equal to the
datetime.now(timezone.utc) expression on the class fields, which Python
evaluates once, when the class body runs at module import.  Every
construction in a process therefore stamps the same importTime instant,
whatever the construction instant is. -/
def parse_pull_request (importTime : Int) (p : RawPullRequest) : PullRequest :=
  { id := p.id, title := p.title, author := p.author,
    updates := [], last_read := importTime, last_updated := importTime }

/-- Spec-side fresh construction, for comparison with parse_pull_request.
Modelled from the spec wording: a fresh PullRequest is constructed with
last_read and last_updated defaulted to the construction time and an empty
Updates list, the default being evaluated fresh at each construction. -/
def fresh_pull_request_spec (constructionTime : Int) (p : RawPullRequest) : PullRequest :=
  { id := p.id, title := p.title, author := p.author,
    updates := [], last_read := constructionTime, last_updated := constructionTime }

/-- Lookup in a Python dict keyed by pull-request id (modelled as an
association list in insertion order). -/
def dictGet {α : Type} (k : Nat) : List (Nat × α) → Option α
  | [] => none
  | (k2, v) :: rest => if k2 = k then some v else dictGet k rest

/-- Assignment d[k] = v on a Python dict: an existing key keeps its
position and takes the new value; a fresh key is appended at the end. -/
def dictInsert {α : Type} (k : Nat) (v : α) : List (Nat × α) → List (Nat × α)
  | [] => [(k, v)]
  | (k2, v2) :: rest =>
    if k2 = k then (k, v) :: rest else (k2, v2) :: dictInsert k v rest

/-- The per-repository body of update_watched_pulled_requests, liza.py
lines 151-164: build a fresh dict keyed by the ids of the remote list; an
id already in the repository's mapping keeps the existing local
PullRequest, a new id gets PullRequest.parse_obj of the raw entry; the
fresh dict replaces the old mapping, silently dropping every local pull
request absent from the remote list. -/
def update_watched_pulled_requests (importTime : Int)
    (pull_requests : List (Nat × PullRequest)) (remote : List RawPullRequest) :
    List (Nat × PullRequest) :=
  remote.foldl
    (fun updated pull_request =>
      let p := parse_pull_request importTime pull_request
      match dictGet p.id pull_requests with
      | some existing => dictInsert p.id existing updated
      | none => dictInsert p.id p updated)
    []

/-- One minute, on the integer time line of this embedding (seconds). -/
def oneMinute : Int := 60

/-- The action of the read command, liza.py lines 361-363: mark_read is
called with no argument, so the once-evaluated import-time default is the
instant written into last_read. -/
def read_action (importTime : Int) (pull_request : PullRequest) : PullRequest :=
  pull_request.mark_read_default importTime

/-- The action of the unread command, liza.py lines 374-377: last_read is
set to last_updated minus one minute. -/
def unread_action (pull_request : PullRequest) : PullRequest :=
  pull_request.mark_read (pull_request.last_updated - oneMinute)

/-- C1: has_unread_updates pr is true exactly when last_read ≤ last_updated
and the updates list is non-empty — equality of the two timestamps counts
as unread — and unread_updates returns the updates list exactly when
has_unread_updates holds and the empty list otherwise. -/
theorem c1_unread_policy (pr : PullRequest) :
    (pr.has_unread_updates = true ↔
      pr.last_read ≤ pr.last_updated ∧ pr.updates ≠ []) ∧
    pr.unread_updates = (if pr.has_unread_updates then pr.updates else []) := by
  have hmain : pr.has_unread_updates = true ↔
      pr.last_read ≤ pr.last_updated ∧ pr.updates ≠ [] := by
    unfold PullRequest.has_unread_updates PullRequest.unread_updates
    by_cases h : pr.last_read > pr.last_updated
    · simp [h]
    · have hle : pr.last_read ≤ pr.last_updated := not_lt.mp h
      simp [h, hle, List.length_pos]
  refine ⟨hmain, ?_⟩
  cases hb : pr.has_unread_updates
  · have h0 : pr.unread_updates.length = 0 := by
      by_contra hne
      have hpos : pr.unread_updates.length > 0 := Nat.pos_of_ne_zero hne
      simp [PullRequest.has_unread_updates, hpos] at hb
    simp [List.length_eq_zero.mp h0]
  · rcases hmain.mp hb with ⟨hle, _⟩
    simp only [if_pos]
    unfold PullRequest.unread_updates
    rw [if_neg (by omega)]

/-- C9: the unread command sets last_read to last_updated minus one minute
and changes no other field of the PullRequest, and afterwards
has_unread_updates holds exactly when the (untouched) updates list is
non-empty. -/
theorem c9_unread_frame (pr : PullRequest) :
    unread_action pr = { pr with last_read := pr.last_updated - oneMinute } ∧
    (unread_action pr).has_unread_updates = !pr.updates.isEmpty := by
  refine ⟨rfl, ?_⟩
  unfold unread_action PullRequest.mark_read PullRequest.has_unread_updates
    PullRequest.unread_updates oneMinute
  simp only
  rw [if_neg (by omega)]
  cases pr.updates <;> simp

/-- Sample user for concrete witnesses. -/
def alice : User := { uuid := "aaa", display_name := "Alice" }

/-- Sample user for concrete witnesses. -/
def bob : User := { uuid := "bbb", display_name := "Bob" }

/-- Sample user for concrete witnesses. -/
def carol : User := { uuid := "ccc", display_name := "Carol" }

/-- Sample pull request (authored by alice, last read at instant 10). -/
def prSample : PullRequest :=
  { id := 7, title := "demo", author := alice, updates := [],
    last_read := 10, last_updated := 10 }

/-- A comment raw event at instant d by user u, for concrete witnesses. -/
def actComment (d : Int) (u : User) : RawActivity :=
  { kind := ActivityType.comment, date := d, created_on := d, user := u, author := u }

/-- C2: when every event before position bad is not too old and bad is
dated strictly before last_read, the classifier output for the whole feed
equals the output for the part before bad: processing stops outright at
the first too-old event and nothing positioned after it — whatever its own
date — contributes an Update. -/
theorem c2_stops_at_first_old_event (user_uuid : String) (pr : PullRequest)
    (pre post : List RawActivity) (bad : RawActivity)
    (hpre : ∀ a ∈ pre, pr.last_read ≤ date_of_activity a)
    (hbad : date_of_activity bad < pr.last_read) :
    classify_activities user_uuid pr (pre ++ bad :: post) =
      classify_activities user_uuid pr pre := by
  induction pre with
  | nil =>
    simp only [List.nil_append, classify_activities]
    rw [if_pos hbad]
  | cons a rest ih =>
    have ha : ¬ (date_of_activity a < pr.last_read) :=
      not_lt.mpr (hpre a (List.mem_cons_self a rest))
    have ih2 := ih (fun x hx => hpre x (List.mem_cons_of_mem a hx))
    simp only [List.cons_append, classify_activities]
    rw [if_neg ha, if_neg ha]
    simp only [List.append_eq, ih2]

/-- C2 witness: a concrete feed with one fresh event, then a too-old event,
then an event dated after last_read again; the classifier output equals the
output on the prefix before the too-old event. -/
theorem c2_witness :
    classify_activities "zzz" prSample
        ([actComment 20 bob] ++ actComment 0 bob :: [actComment 30 carol]) =
      classify_activities "zzz" prSample [actComment 20 bob] :=
  c2_stops_at_first_old_event "zzz" prSample [actComment 20 bob]
    [actComment 30 carol] (actComment 0 bob) (by decide) (by decide)

/-- C6: no Update emitted by the classifier is authored by the current
user, for every feed, pull request and current-user identifier. -/
theorem c6_no_self_authored (user_uuid : String) (pr : PullRequest)
    (feed : List RawActivity) :
    ∀ u ∈ classify_activities user_uuid pr feed, u.author.uuid ≠ user_uuid := by
  induction feed with
  | nil =>
    intro u hu
    simp [classify_activities] at hu
  | cons a rest ih =>
    intro u hu
    simp only [classify_activities] at hu
    by_cases h1 : date_of_activity a < pr.last_read
    · rw [if_pos h1] at hu
      simp at hu
    · rw [if_neg h1] at hu
      by_cases h2 : (update_author a).uuid = user_uuid
      · rw [if_pos h2] at hu
        exact ih u hu
      · rw [if_neg h2] at hu
        by_cases h3 : pr.is_authored_by user_uuid = false ∧
            a.kind = ActivityType.approval
        · rw [if_pos h3] at hu
          exact ih u hu
        · rw [if_neg h3] at hu
          rcases List.mem_cons.mp hu with rfl | hmem
          · exact h2
          · exact ih u hmem

/-- C6 witness: a concrete comment by bob survives classification under
current user alice, and its author differs from alice. -/
theorem c6_witness :
    User.uuid (Update.author ⟨20, ActivityType.comment, bob⟩) ≠ "aaa" :=
  c6_no_self_authored "aaa" prSample [actComment 20 bob]
    ⟨20, ActivityType.comment, bob⟩ (by decide)

/-- C7: when the pull request is not authored by the current user, no
approval Update is ever emitted by the classifier. -/
theorem c7_no_reviewer_approvals (user_uuid : String) (pr : PullRequest)
    (feed : List RawActivity) (hauthor : pr.author.uuid ≠ user_uuid) :
    ∀ u ∈ classify_activities user_uuid pr feed,
      u.activity_type ≠ ActivityType.approval := by
  have hba : pr.is_authored_by user_uuid = false := by
    unfold PullRequest.is_authored_by
    simp
    exact fun h => hauthor h.symm
  induction feed with
  | nil =>
    intro u hu
    simp [classify_activities] at hu
  | cons a rest ih =>
    intro u hu
    simp only [classify_activities] at hu
    by_cases h1 : date_of_activity a < pr.last_read
    · rw [if_pos h1] at hu
      simp at hu
    · rw [if_neg h1] at hu
      by_cases h2 : (update_author a).uuid = user_uuid
      · rw [if_pos h2] at hu
        exact ih u hu
      · rw [if_neg h2] at hu
        by_cases h3 : pr.is_authored_by user_uuid = false ∧
            a.kind = ActivityType.approval
        · rw [if_pos h3] at hu
          exact ih u hu
        · rw [if_neg h3] at hu
          rcases List.mem_cons.mp hu with rfl | hmem
          · exact fun hk => h3 ⟨hba, hk⟩
          · exact ih u hmem

/-- C7 witness: with bob (a mere reviewer) as current user on a pull
request authored by alice, a surviving comment by carol is not an
approval. -/
theorem c7_witness :
    Update.activity_type ⟨20, ActivityType.comment, carol⟩ ≠
      ActivityType.approval :=
  c7_no_reviewer_approvals "bbb" prSample [actComment 20 carol] (by decide)
    ⟨20, ActivityType.comment, carol⟩ (by decide)

/-- C10: on every feed, ordered or not, every emitted Update is dated at or
after the pull request's last_read: the strict too-old check runs on each
event before any emission. -/
theorem c10_no_stale_update (user_uuid : String) (pr : PullRequest)
    (feed : List RawActivity) :
    ∀ u ∈ classify_activities user_uuid pr feed, pr.last_read ≤ u.date := by
  induction feed with
  | nil =>
    intro u hu
    simp [classify_activities] at hu
  | cons a rest ih =>
    intro u hu
    simp only [classify_activities] at hu
    by_cases h1 : date_of_activity a < pr.last_read
    · rw [if_pos h1] at hu
      simp at hu
    · rw [if_neg h1] at hu
      by_cases h2 : (update_author a).uuid = user_uuid
      · rw [if_pos h2] at hu
        exact ih u hu
      · rw [if_neg h2] at hu
        by_cases h3 : pr.is_authored_by user_uuid = false ∧
            a.kind = ActivityType.approval
        · rw [if_pos h3] at hu
          exact ih u hu
        · rw [if_neg h3] at hu
          rcases List.mem_cons.mp hu with rfl | hmem
          · exact not_lt.mp h1
          · exact ih u hmem

/-- C10 witness: the concrete surviving comment is dated at or after the
sample pull request's last_read. -/
theorem c10_witness :
    prSample.last_read ≤ Update.date ⟨20, ActivityType.comment, bob⟩ :=
  c10_no_stale_update "zzz" prSample [actComment 20 bob]
    ⟨20, ActivityType.comment, bob⟩ (by decide)

/-- The value the reconciler stores for one remote entry q: the existing
local PullRequest when q's id is already in the repository's mapping,
otherwise the freshly parsed one. -/
def reconcile_value (importTime : Int) (pull_requests : List (Nat × PullRequest))
    (q : RawPullRequest) : PullRequest :=
  match dictGet q.id pull_requests with
  | some existing => existing
  | none => parse_pull_request importTime q

/-- The last element of a list whose key equals k, if any: with Python
dict assignment, the value finally stored under a key comes from the last
entry carrying that key. -/
def lastMatch {β : Type} (key : β → Nat) (k : Nat) : List β → Option β
  | [] => none
  | p :: rest =>
    match lastMatch key k rest with
    | some q => some q
    | none => if key p = k then some p else none

theorem dictGet_insert {α : Type} (k j : Nat) (v : α) (d : List (Nat × α)) :
    dictGet k (dictInsert j v d) = if j = k then some v else dictGet k d := by
  induction d with
  | nil => simp [dictInsert, dictGet]
  | cons hd tl ih =>
    obtain ⟨k2, v2⟩ := hd
    by_cases h : k2 = j
    · subst h
      by_cases hk : k2 = k <;> simp [dictInsert, dictGet, hk]
    · simp only [dictInsert, if_neg h, dictGet, ih]
      by_cases hk : k2 = k
      · have hjk : ¬ j = k := fun he => h (hk.trans he.symm)
        simp [hk, hjk]
      · simp [hk]

theorem dictGet_eq_none {α : Type} (k : Nat) (d : List (Nat × α))
    (h : k ∉ d.map Prod.fst) : dictGet k d = none := by
  induction d with
  | nil => rfl
  | cons hd tl ih =>
    obtain ⟨k2, v2⟩ := hd
    simp only [List.map_cons, List.mem_cons] at h
    push_neg at h
    rw [dictGet, if_neg (fun he => h.1 he.symm)]
    exact ih h.2

theorem keys_insert {α : Type} (j : Nat) (v : α) (d : List (Nat × α)) :
    (dictInsert j v d).map Prod.fst =
      if j ∈ d.map Prod.fst then d.map Prod.fst else d.map Prod.fst ++ [j] := by
  induction d with
  | nil => simp [dictInsert]
  | cons hd tl ih =>
    obtain ⟨k2, v2⟩ := hd
    by_cases h : k2 = j
    · subst h
      simp [dictInsert]
    · by_cases hj : j ∈ tl.map Prod.fst
      · have hmem : j ∈ ((k2, v2) :: tl).map Prod.fst := by
          simp [List.mem_cons, hj]
        simp [dictInsert, h, ih, hj, hmem]
      · have hjk : ¬ j = k2 := fun he => h he.symm
        have hmem : j ∉ ((k2, v2) :: tl).map Prod.fst := by
          simp [List.mem_cons, hj]
          exact hjk
        simp [dictInsert, h, ih, hj, hmem, hjk]

theorem keys_insert_nodup {α : Type} (j : Nat) (v : α) (d : List (Nat × α))
    (hnd : (d.map Prod.fst).Nodup) : ((dictInsert j v d).map Prod.fst).Nodup := by
  rw [keys_insert]
  by_cases hj : j ∈ d.map Prod.fst
  · simpa [hj] using hnd
  · rw [if_neg hj, ← List.concat_eq_append]
    exact List.Nodup.concat hj hnd

theorem dict_ext {α : Type} (d1 d2 : List (Nat × α))
    (hk : d1.map Prod.fst = d2.map Prod.fst)
    (hnd : (d1.map Prod.fst).Nodup)
    (hget : ∀ k, dictGet k d1 = dictGet k d2) : d1 = d2 := by
  induction d1 generalizing d2 with
  | nil =>
    cases d2 with
    | nil => rfl
    | cons hd tl => simp at hk
  | cons hd tl ih =>
    obtain ⟨k1, v1⟩ := hd
    cases d2 with
    | nil => simp at hk
    | cons hd2 tl2 =>
      obtain ⟨k2, v2⟩ := hd2
      simp only [List.map_cons, List.cons.injEq] at hk
      obtain ⟨hkk, hktl⟩ := hk
      subst hkk
      have hv : v1 = v2 := by
        have hg := hget k1
        simpa [dictGet] using hg
      subst hv
      simp only [List.map_cons, List.nodup_cons] at hnd
      have hget2 : ∀ k, dictGet k tl = dictGet k tl2 := by
        intro k
        by_cases hkeq : k1 = k
        · subst hkeq
          rw [dictGet_eq_none k1 tl hnd.1, dictGet_eq_none k1 tl2 (hktl ▸ hnd.1)]
        · have hg := hget k
          simpa [dictGet, hkeq] using hg
      rw [ih tl2 hktl hnd.2 hget2]

theorem foldl_insert_get {β α : Type} (key : β → Nat) (f : β → α)
    (remote : List β) (acc : List (Nat × α)) (k : Nat) :
    dictGet k (remote.foldl (fun upd p => dictInsert (key p) (f p) upd) acc) =
      match lastMatch key k remote with
      | some p => some (f p)
      | none => dictGet k acc := by
  induction remote generalizing acc with
  | nil => rfl
  | cons p rest ih =>
    rw [List.foldl_cons, ih]
    simp only [lastMatch]
    cases hl : lastMatch key k rest with
    | some q => rfl
    | none =>
      rw [dictGet_insert]
      by_cases hp : key p = k <;> simp [hp]

theorem foldl_insert_keys {β α : Type} (key : β → Nat) (f g : β → α)
    (remote : List β) (acc1 acc2 : List (Nat × α))
    (hacc : acc1.map Prod.fst = acc2.map Prod.fst) :
    (remote.foldl (fun upd p => dictInsert (key p) (f p) upd) acc1).map Prod.fst =
      (remote.foldl (fun upd p => dictInsert (key p) (g p) upd) acc2).map
        Prod.fst := by
  induction remote generalizing acc1 acc2 with
  | nil => simpa using hacc
  | cons p rest ih =>
    rw [List.foldl_cons, List.foldl_cons]
    apply ih
    rw [keys_insert, keys_insert, hacc]

theorem foldl_insert_nodup {β α : Type} (key : β → Nat) (f : β → α)
    (remote : List β) (acc : List (Nat × α)) (h : (acc.map Prod.fst).Nodup) :
    ((remote.foldl (fun upd p => dictInsert (key p) (f p) upd) acc).map
      Prod.fst).Nodup := by
  induction remote generalizing acc with
  | nil => exact h
  | cons p rest ih =>
    rw [List.foldl_cons]
    exact ih _ (keys_insert_nodup _ _ _ h)

theorem lastMatch_key {β : Type} (key : β → Nat) (k : Nat) (l : List β) (p : β)
    (h : lastMatch key k l = some p) : key p = k := by
  induction l with
  | nil => simp [lastMatch] at h
  | cons q rest ih =>
    simp only [lastMatch] at h
    cases hl : lastMatch key k rest with
    | some r =>
      rw [hl] at h
      cases h
      exact ih hl
    | none =>
      rw [hl] at h
      by_cases hp : key q = k
      · rw [if_pos hp] at h
        cases h
        exact hp
      · rw [if_neg hp] at h
        cases h

theorem lastMatch_isSome {β : Type} (key : β → Nat) (k : Nat) (l : List β) :
    (lastMatch key k l).isSome = true ↔ k ∈ l.map key := by
  induction l with
  | nil => simp [lastMatch]
  | cons q rest ih =>
    simp only [lastMatch, List.map_cons, List.mem_cons]
    cases hl : lastMatch key k rest with
    | some r =>
      rw [hl] at ih
      simp only [Option.isSome_some, true_iff] at ih
      simp [ih]
    | none =>
      rw [hl] at ih
      simp only [Option.isSome_none, Bool.false_eq_true, false_iff] at ih
      by_cases hp : key q = k
      · simp [hp, ih]
      · simp [hp, ih]
        exact fun he => hp he.symm

theorem update_watched_eq (importTime : Int)
    (pull_requests : List (Nat × PullRequest)) (remote : List RawPullRequest) :
    update_watched_pulled_requests importTime pull_requests remote =
      remote.foldl
        (fun upd q =>
          dictInsert (RawPullRequest.id q)
            (reconcile_value importTime pull_requests q) upd)
        [] := by
  unfold update_watched_pulled_requests
  congr 1
  funext upd q
  show (match dictGet (parse_pull_request importTime q).id pull_requests with
    | some existing => dictInsert (parse_pull_request importTime q).id existing upd
    | none =>
      dictInsert (parse_pull_request importTime q).id
        (parse_pull_request importTime q) upd) =
    dictInsert (RawPullRequest.id q) (reconcile_value importTime pull_requests q) upd
  have hid : (parse_pull_request importTime q).id = RawPullRequest.id q := rfl
  rw [hid]
  unfold reconcile_value
  cases dictGet (RawPullRequest.id q) pull_requests <;> rfl

theorem update_watched_get (importTime : Int)
    (pull_requests : List (Nat × PullRequest)) (remote : List RawPullRequest)
    (k : Nat) :
    dictGet k (update_watched_pulled_requests importTime pull_requests remote) =
      match lastMatch RawPullRequest.id k remote with
      | some p => some (reconcile_value importTime pull_requests p)
      | none => none := by
  rw [update_watched_eq]
  have h := foldl_insert_get RawPullRequest.id
    (reconcile_value importTime pull_requests) remote [] k
  rw [h]
  cases lastMatch RawPullRequest.id k remote <;> rfl

/-- C5: the reconciled mapping, characterized key by key.  Lookup of an
identifier succeeds exactly when some remote entry carries it — so every
local pull request whose identifier is absent from the remote list is
dropped, silently, the reconciler being a total function — and when it
succeeds the stored value is the existing local PullRequest whenever the
identifier was already in the local mapping (its last_read, last_updated
and prior updates untouched) and the freshly parsed PullRequest of the
last such remote entry otherwise. -/
theorem c5_reconciled_mapping (importTime : Int)
    (pull_requests : List (Nat × PullRequest)) (remote : List RawPullRequest)
    (k : Nat) :
    (dictGet k (update_watched_pulled_requests importTime pull_requests remote) =
      match lastMatch RawPullRequest.id k remote with
      | some p =>
        some (match dictGet k pull_requests with
              | some existing => existing
              | none => parse_pull_request importTime p)
      | none => none) ∧
    ((dictGet k (update_watched_pulled_requests importTime pull_requests
        remote)).isSome = true ↔ k ∈ remote.map RawPullRequest.id) := by
  have hchar : dictGet k
      (update_watched_pulled_requests importTime pull_requests remote) =
      match lastMatch RawPullRequest.id k remote with
      | some p =>
        some (match dictGet k pull_requests with
              | some existing => existing
              | none => parse_pull_request importTime p)
      | none => none := by
    rw [update_watched_get]
    cases hl : lastMatch RawPullRequest.id k remote with
    | none => rfl
    | some p =>
      have hk : RawPullRequest.id p = k := lastMatch_key _ _ _ _ hl
      unfold reconcile_value
      show some (match dictGet (RawPullRequest.id p) pull_requests with
          | some existing => existing
          | none => parse_pull_request importTime p) =
        some (match dictGet k pull_requests with
          | some existing => existing
          | none => parse_pull_request importTime p)
      rw [hk]
  refine ⟨hchar, ?_⟩
  rw [hchar]
  have hsome := lastMatch_isSome RawPullRequest.id k remote
  cases hl : lastMatch RawPullRequest.id k remote with
  | none =>
    rw [hl] at hsome
    simpa using hsome
  | some p =>
    rw [hl] at hsome
    simpa using hsome

/-- C8: reconciling an already-reconciled mapping against the same remote
list yields exactly the same mapping again — same entries, same values,
same insertion order, with every preserved entry reused rather than
freshly constructed. -/
theorem c8_reconcile_idempotent (importTime : Int)
    (pull_requests : List (Nat × PullRequest)) (remote : List RawPullRequest) :
    update_watched_pulled_requests importTime
        (update_watched_pulled_requests importTime pull_requests remote) remote =
      update_watched_pulled_requests importTime pull_requests remote := by
  apply dict_ext
  · rw [update_watched_eq importTime
      (update_watched_pulled_requests importTime pull_requests remote) remote,
      update_watched_eq importTime pull_requests remote]
    exact foldl_insert_keys RawPullRequest.id _ _ remote [] [] rfl
  · rw [update_watched_eq importTime
      (update_watched_pulled_requests importTime pull_requests remote) remote]
    exact foldl_insert_nodup RawPullRequest.id _ remote [] (by simp)
  · intro k
    rw [update_watched_get, update_watched_get]
    cases hl : lastMatch RawPullRequest.id k remote with
    | none => rfl
    | some p =>
      have hk : RawPullRequest.id p = k := lastMatch_key _ _ _ _ hl
      have hval : dictGet (RawPullRequest.id p)
          (update_watched_pulled_requests importTime pull_requests remote) =
          some (reconcile_value importTime pull_requests p) := by
        rw [hk, update_watched_get, hl]
      show some (reconcile_value importTime
          (update_watched_pulled_requests importTime pull_requests remote) p) =
        some (reconcile_value importTime pull_requests p)
      unfold reconcile_value
      rw [hval]
      exact rfl

/-- Sample raw remote pull-request entry with a previously unseen id. -/
def rawPR4 : RawPullRequest := { id := 4, title := "new pr", author := bob }

/-- C3, evaluated on the code at the failing input: with config.py imported
at instant 0, the PullRequest the reconciler constructs for the new remote
id 4 carries last_read = last_updated = 0 — the class-field default
expression evaluated once at type definition — and an empty updates list,
whatever the construction instant; in particular it differs from the
spec-side fresh construction at construction instant 5, which stamps 5
into both timestamps. -/
theorem c3_defaults_stamped_at_import_time :
    dictGet 4 (update_watched_pulled_requests 0 [] [rawPR4]) =
      some (parse_pull_request 0 rawPR4) ∧
    (parse_pull_request 0 rawPR4).last_read = 0 ∧
    (parse_pull_request 0 rawPR4).last_updated = 0 ∧
    (parse_pull_request 0 rawPR4).updates = [] ∧
    parse_pull_request 0 rawPR4 ≠ fresh_pull_request_spec 5 rawPR4 ∧
    (fresh_pull_request_spec 5 rawPR4).last_read = 5 ∧
    (fresh_pull_request_spec 5 rawPR4).last_updated = 5 := by
  refine ⟨rfl, rfl, rfl, rfl, ?_, rfl, rfl⟩
  decide

/-- Sample pull request for the mark-read code-bug evaluation: one pending
update, last synchronized at instant 3. -/
def prStale : PullRequest :=
  { id := 9, title := "stale", author := alice,
    updates := [⟨2, ActivityType.comment, bob⟩], last_read := 1,
    last_updated := 3 }

/-- C4, evaluated on the code at the failing input: the read command calls
mark_read with no argument, and the Python default is evaluated once at
class-definition (module import) time, here instant 0 — not at each
invocation.  Invoked at instant 5 on a pull request last synchronized at
instant 3, the code leaves last_read at 0 and has_unread_updates stays
true; writing the invocation instant 5, as the claim states, would clear
it. -/
theorem c4_mark_read_default_is_import_time :
    (read_action 0 prStale).last_read = 0 ∧
    (read_action 0 prStale).has_unread_updates = true ∧
    (prStale.mark_read 5).last_read = 5 ∧
    (prStale.mark_read 5).has_unread_updates = false := by
  decide

end LizaCli
